import Mathlib

/-!
Shallow embedding of the io_urine ring-buffer engine (src/sq.rs, src/cq.rs,
src/io_uring.rs) and proofs about its submission/completion ring protocol.

Machine integers (u32 / u64) are modelled as Nat with explicit reduction
modulo 2^32 / 2^64 at every point where the Rust code performs wrapping
arithmetic or stores into a typed cell.  Kernel-written shared-memory cells
(the submission-ring head, the completion-ring tail, flags, dropped,
overflow) are modelled as oracle inputs passed to the operations that read
them; library-written cells (the submission-ring tail cell, the index
array, the completion-ring head cell) are explicit state components.
-/

/-- 2^32, the modulus of u32 arithmetic. -/
abbrev U32 : Nat := 4294967296

/-- 2^64, the modulus of u64 arithmetic. -/
abbrev U64 : Nat := 18446744073709551616

/-- u32 wrapping subtraction: a.wrapping_sub(b) for u32 values (inputs are
reduced mod 2^32). -/
def wsub (a b : Nat) : Nat := (a % U32 + U32 - b % U32) % U32

/-- Mirror of struct io_uring_sqe (src/lib.rs). Field contents are opaque
payload for the ring protocol; unsigned fields are Nat, signed ones Int. -/
structure io_uring_sqe where
  opcode : Nat
  flags : Nat
  ioprio : Nat
  fd : Int
  off : Nat
  addr : Nat
  len : Nat
  rw_flags : Int
  user_data : Nat
  buf_index : Nat
  personality : Nat
  splice_fd_in : Int
  addr3 : Nat
  pad2 : Nat
deriving DecidableEq

/-- io_uring_sqe::default(): all fields zero. -/
def io_uring_sqe.default : io_uring_sqe :=
  ⟨0, 0, 0, 0, 0, 0, 0, 0, 0, 0, 0, 0, 0, 0⟩

/-- Mirror of struct io_uring_cqe (src/lib.rs). -/
structure io_uring_cqe where
  user_data : Nat
  res : Int
  flags : Nat
deriving DecidableEq

/-- Mirror of struct SubmissionQueue (src/sq.rs).  The khead, kflags and
kdropped pointers target kernel-written cells; reads through them are
modelled as oracle parameters of the operations that perform them, so they
are not state components here.  ktail and array are library-written
kernel-visible memory; sqes is the mapped SQE array; head/tail are the
user-owned shadow indices. -/
structure SubmissionQueue where
  ktail : Nat
  kring_mask : Nat
  kring_entries : Nat
  array : Nat → Nat
  sqes : Nat → io_uring_sqe
  head : Nat
  tail : Nat

namespace SubmissionQueue

/-- SubmissionQueue::space_left (src/sq.rs lines 80-85):
kring_entries - tail.wrapping_sub(head), with the outer u32 subtraction
also taken wrapping (release-mode semantics; it never underflows on states
satisfying the ring invariant). -/
def space_left (s : SubmissionQueue) : Nat :=
  wsub s.kring_entries (wsub s.tail s.head)

/-- SubmissionQueue::is_full (src/sq.rs lines 119-122). -/
def is_full (s : SubmissionQueue) : Bool :=
  s.space_left = 0

/-- SubmissionQueue::peek_sqe (src/sq.rs lines 87-107): if
tail == head.wrapping_add(kring_entries), no space; else write
index = tail & mask into the index array, advance the shadow tail by one
(wrapping), and return the SQE at the masked index. -/
def peek_sqe (s : SubmissionQueue) : Option io_uring_sqe × SubmissionQueue :=
  if s.tail = (s.head + s.kring_entries) % U32 then
    (none, s)
  else
    let index := Nat.land s.tail s.kring_mask
    (some (s.sqes index),
      { s with
          array := fun j => if j = index then index else s.array j,
          tail := (s.tail + 1) % U32 })

/-- SubmissionQueue::update_kernel_tail (src/sq.rs lines 154-160):
to_submit = tail.wrapping_sub(head); store the shadow tail into the
kernel-visible tail cell; return to_submit. -/
def update_kernel_tail (s : SubmissionQueue) : Nat × SubmissionQueue :=
  (wsub s.tail s.head, { s with ktail := s.tail % U32 })

/-- SubmissionQueue::update_from_kernel (src/sq.rs lines 162-165): store
the value read from the kernel-visible head cell (a u32, passed here as
the oracle argument) into the shadow head. -/
def update_from_kernel (s : SubmissionQueue) (khead_read : Nat) : SubmissionQueue :=
  { s with head := khead_read % U32 }

/-- SubmissionQueue::advance (src/sq.rs lines 109-112). -/
def advance (s : SubmissionQueue) (count : Nat) : SubmissionQueue :=
  { s with tail := (s.tail + count) % U32 }

end SubmissionQueue

/-- Mirror of struct CompletionQueue (src/cq.rs).  The ktail, kflags and
koverflow pointers target kernel-written cells, modelled as oracle reads;
khead is the library-writable kernel-visible head cell; cqes is the mapped
CQE array (kernel-produced content, read by the library); head/tail are
the user-owned shadow indices. -/
structure CompletionQueue where
  khead : Nat
  kring_mask : Nat
  kring_entries : Nat
  cqes : Nat → io_uring_cqe
  head : Nat
  tail : Nat

namespace CompletionQueue

/-- CompletionQueue::get_khead (src/cq.rs lines 51-53). -/
def get_khead (s : CompletionQueue) : Nat := s.khead

/-- CompletionQueue::set_khead (src/cq.rs lines 59-61): store into the
kernel-visible head cell. -/
def set_khead (s : CompletionQueue) (value : Nat) : CompletionQueue :=
  { s with khead := value % U32 }

/-- CompletionQueue::update_kernel_tail (src/cq.rs lines 63-66): load the
kernel-visible tail cell (oracle argument) into the shadow tail. -/
def update_kernel_tail (s : CompletionQueue) (ktail_read : Nat) : CompletionQueue :=
  { s with tail := ktail_read % U32 }

/-- CompletionQueue::events_available (src/cq.rs lines 68-73). -/
def events_available (s : CompletionQueue) : Nat :=
  wsub s.tail s.head

/-- CompletionQueue::peek (src/cq.rs lines 75-87): none if tail == head,
else the CQE at head & mask; no index is advanced. -/
def peek (s : CompletionQueue) : Option io_uring_cqe :=
  if s.tail = s.head then none
  else some (s.cqes (Nat.land s.head s.kring_mask))

/-- CompletionQueue::advance (src/cq.rs lines 103-106): move the shadow
head forward by count (wrapping). -/
def advance (s : CompletionQueue) (count : Nat) : CompletionQueue :=
  { s with head := (s.head + count) % U32 }

/-- CompletionQueue::is_empty (src/cq.rs lines 108-111). -/
def is_empty (s : CompletionQueue) : Bool :=
  s.events_available = 0

end CompletionQueue

/-- Mirror of enum EnterError (src/err.rs); errno payloads as Int. -/
inductive EnterError where
  | SyscallFailed (errno : Int)
  | BadOffset
deriving DecidableEq

/-- The io_uring_enter syscall is an external kernel boundary; it is
modelled as a function from (to_submit, wait_count, flags) to the number
of accepted entries or an error.  The sigmask argument never influences
the ring state and is elided. -/
def EnterFn : Type := Nat → Nat → Nat → Except EnterError Nat

/-- Mirror of struct IoUring (src/io_uring.rs): the two rings plus the
user_data allocator state (next_user_data counter and the freed pool,
a Vec used as a stack).  The fd and the three mmaps carry no protocol
state. -/
structure IoUring where
  sq : SubmissionQueue
  cq : CompletionQueue
  next_user_data : Nat
  free_user_data_pool : List Nat

namespace IoUring

/-- Clamping of the requested entry count in IoUring::new
(src/io_uring.rs lines 66-73): 0 becomes the default 32, anything else is
entries.clamp(1, 4096) = min (max entries 1) 4096. -/
def new_sq_entries (entries : Nat) : Nat :=
  if entries = 0 then 32 else min (max entries 1) 4096

/-- Clamping of both entry counts in IoUring::with_entries
(src/io_uring.rs lines 87-99). -/
def with_entries_params (sq_entries cq_entries : Nat) : Nat × Nat :=
  (min (max sq_entries 1) 4096, min (max cq_entries 1) 4096)

/-- IoUring::enter (src/io_uring.rs lines 516-540): forwards to the
io_uring_enter syscall and returns whatever it returns; no ring state is
touched. -/
def enter (r : IoUring) (ent : EnterFn) (to_submit wait_count flags : Nat) :
    Except EnterError Nat × IoUring :=
  (ent to_submit wait_count flags, r)

/-- IoUring::submit (src/io_uring.rs lines 487-493): publish the tail,
enter with (to_submit, wait 0, flags 0), refresh the submission head from
the kernel cell (oracle sq_khead_read), refresh the completion tail from
the kernel cell (oracle cq_ktail_read), return the enter result. -/
def submit (r : IoUring) (ent : EnterFn) (sq_khead_read cq_ktail_read : Nat) :
    Except EnterError Nat × IoUring :=
  let pub := r.sq.update_kernel_tail
  let result := ent pub.1 0 0
  let sq2 := pub.2.update_from_kernel sq_khead_read
  let cq2 := r.cq.update_kernel_tail cq_ktail_read
  (result, { r with sq := sq2, cq := cq2 })

/-- IORING_ENTER_GETEVENTS (src/lib.rs line 43). -/
def IORING_ENTER_GETEVENTS : Nat := 1

/-- IoUring::submit_and_wait (src/io_uring.rs lines 499-510). -/
def submit_and_wait (r : IoUring) (ent : EnterFn)
    (wait_count sq_khead_read cq_ktail_read : Nat) :
    Except EnterError Nat × IoUring :=
  let pub := r.sq.update_kernel_tail
  let result := ent pub.1 wait_count IORING_ENTER_GETEVENTS
  let sq2 := pub.2.update_from_kernel sq_khead_read
  let cq2 := r.cq.update_kernel_tail cq_ktail_read
  (result, { r with sq := sq2, cq := cq2 })

/-- IoUring::peek_cqe (src/io_uring.rs lines 542-546): refresh the
completion shadow tail from the kernel cell, then CompletionQueue::peek. -/
def peek_cqe (r : IoUring) (cq_ktail_read : Nat) :
    Option io_uring_cqe × IoUring :=
  let cq1 := r.cq.update_kernel_tail cq_ktail_read
  (cq1.peek, { r with cq := cq1 })

/-- IoUring::copy_cqes (src/io_uring.rs lines 548-561): refresh the
completion shadow tail, to_copy = min count events_available; if zero an
empty slice, else the slice of to_copy CQEs starting at physical index
get_khead() (the kernel-visible head cell value, unmasked) — exactly what
from_raw_parts(cqe_ptr.add(head), to_copy) reads. -/
def copy_cqes (r : IoUring) (count : Nat) (cq_ktail_read : Nat) :
    List io_uring_cqe × IoUring :=
  let cq1 := r.cq.update_kernel_tail cq_ktail_read
  let available := cq1.events_available
  let to_copy := min count available
  if to_copy = 0 then ([], { r with cq := cq1 })
  else
    let head := cq1.get_khead
    ((List.range to_copy).map (fun i => cq1.cqes (head + i)), { r with cq := cq1 })

/-- IoUring::cqe_seen (src/io_uring.rs lines 563-566): ignore the CQE
argument and advance the completion shadow head by 1. -/
def cqe_seen (r : IoUring) (_cqe : io_uring_cqe) : IoUring :=
  { r with cq := r.cq.advance 1 }

/-- IoUring::get_sqe (src/io_uring.rs lines 261-266): peek_sqe, then
overwrite the returned slot (at the old tail & mask) with the default SQE
and return it. -/
def get_sqe (r : IoUring) : Option io_uring_sqe × IoUring :=
  match r.sq.peek_sqe with
  | (none, _) => (none, r)
  | (some _, sq1) =>
      let index := Nat.land r.sq.tail r.sq.kring_mask
      let sq2 := { sq1 with
        sqes := fun j => if j = index then io_uring_sqe.default else sq1.sqes j }
      (some io_uring_sqe.default, { r with sq := sq2 })

/-- IoUring::alloc_user_data (src/io_uring.rs lines 360-379): pop a freed
value if any; otherwise current = fetch_add(1) on next_user_data (wrapping
u64); if current was 0 store 2 and return 1, else return current. -/
def alloc_user_data (r : IoUring) : Nat × IoUring :=
  match r.free_user_data_pool with
  | reused :: rest => (reused, { r with free_user_data_pool := rest })
  | [] =>
      let current := r.next_user_data
      if current = 0 then
        (1, { r with next_user_data := 2 })
      else
        (current, { r with next_user_data := (current + 1) % U64 })

/-- IoUring::free_user_data (src/io_uring.rs lines 385-390): push the
value for reuse unless it is the reserved value 0. -/
def free_user_data (r : IoUring) (user_data : Nat) : IoUring :=
  if user_data ≠ 0 then
    { r with free_user_data_pool := user_data :: r.free_user_data_pool }
  else r

end IoUring

/-- One public engine call, with the oracle values its kernel-cell reads
return embedded in the constructor. -/
inductive EngineOp where
  | submitOp (sq_khead_read cq_ktail_read : Nat)
  | submitAndWaitOp (wait_count sq_khead_read cq_ktail_read : Nat)
  | peekCqeOp (cq_ktail_read : Nat)
  | copyCqesOp (count cq_ktail_read : Nat)
  | cqeSeenOp (c : io_uring_cqe)
  | enterOp (to_submit wait_count flags : Nat)
  | getSqeOp
  | allocUserDataOp
  | freeUserDataOp (v : Nat)

/-- Effect of one public engine call on the engine state. -/
def runOp (ent : EnterFn) (r : IoUring) : EngineOp → IoUring
  | .submitOp h t => (r.submit ent h t).2
  | .submitAndWaitOp w h t => (r.submit_and_wait ent w h t).2
  | .peekCqeOp t => (r.peek_cqe t).2
  | .copyCqesOp n t => (r.copy_cqes n t).2
  | .cqeSeenOp c => r.cqe_seen c
  | .enterOp s w f => (r.enter ent s w f).2
  | .getSqeOp => r.get_sqe.2
  | .allocUserDataOp => r.alloc_user_data.2
  | .freeUserDataOp v => r.free_user_data v

/-- Effect of a sequence of public engine calls. -/
def runOps (ent : EnterFn) (r : IoUring) : List EngineOp → IoUring
  | [] => r
  | op :: rest => runOps ent (runOp ent r op) rest

/-- A concrete submission ring: capacity 4, fresh (head = tail = 0). -/
def exSQ : SubmissionQueue :=
  { ktail := 0, kring_mask := 3, kring_entries := 4,
    array := fun _ => 0, sqes := fun _ => io_uring_sqe.default,
    head := 0, tail := 0 }

/-- One submission-ring operation, with the oracle value returned by the
kernel-head read embedded in the refresh constructor. -/
inductive SqOp where
  | acquire
  | publish
  | refresh (khead_read : Nat)

/-- Effect of one submission-ring operation on the ring state. -/
def SubmissionQueue.step (s : SubmissionQueue) : SqOp → SubmissionQueue
  | .acquire => s.peek_sqe.2
  | .publish => s.update_kernel_tail.2
  | .refresh v => s.update_from_kernel v

/-- Effect of a sequence of submission-ring operations. -/
def runSqOps (s : SubmissionQueue) : List SqOp → SubmissionQueue
  | [] => s
  | op :: rest => runSqOps (s.step op) rest

/-- Number of acquireSlot (peek_sqe) calls in the trace after the last
publishTail (update_kernel_tail) call. -/
def countAcquiresSincePublish (ops : List SqOp) : Nat :=
  ops.foldl
    (fun acc op =>
      match op with
      | .acquire => acc + 1
      | .publish => 0
      | .refresh _ => acc)
    0

/-- n consecutive peek_sqe calls (keeping only the state). -/
def SubmissionQueue.acquireN (s : SubmissionQueue) : Nat → SubmissionQueue
  | 0 => s
  | n + 1 => (s.acquireN n).peek_sqe.2

/-- The same ring after two slots were handed out. -/
def exSQ2 : SubmissionQueue := { exSQ with tail := 2 }

/-- A concrete engine state: fresh capacity-4 submission ring; completion
ring whose CQE at physical index i carries correlation tag i, with one
completion already consumed (shadow head 1) while the kernel-visible head
cell still holds 0. -/
def exRing : IoUring :=
  { sq := exSQ,
    cq := { khead := 0, kring_mask := 3, kring_entries := 4,
            cqes := fun i => ⟨i, 0, 0⟩, head := 1, tail := 1 },
    next_user_data := 1,
    free_user_data_pool := [] }

/-- exRing after the completion shadow tail caught up to 3. -/
def exRing2 : IoUring := { exRing with cq := { exRing.cq with tail := 3 } }

/-- A concrete kernel that accepts every entry of an empty batch. -/
def exEnt : EnterFn := fun _ _ _ => Except.ok 0

theorem wsub_lt (a b : Nat) : wsub a b < U32 := by
  simp only [wsub, U32]; omega

theorem wsub_sub (a b : Nat) (ha : a < U32) (hb : b < U32) (h : b ≤ a) :
    wsub a b = a - b := by
  simp only [wsub, U32] at *; omega

/-- C1: peek_sqe returns None exactly when shadow_tail equals
shadow_head + capacity (wrapping); otherwise it returns the SQE at the
masked index shadow_tail AND mask, records that index in the index array,
advances the shadow tail by exactly one (wrapping), and leaves the shadow
head unchanged; in the full case the state is untouched. -/
theorem peek_sqe_spec (s : SubmissionQueue) :
    ((s.peek_sqe.1 = none ↔ s.tail = (s.head + s.kring_entries) % U32)
    ∧ (s.tail ≠ (s.head + s.kring_entries) % U32 →
        s.peek_sqe.1 = some (s.sqes (Nat.land s.tail s.kring_mask))
        ∧ s.peek_sqe.2.array (Nat.land s.tail s.kring_mask)
            = Nat.land s.tail s.kring_mask
        ∧ s.peek_sqe.2.tail = (s.tail + 1) % U32
        ∧ s.peek_sqe.2.head = s.head)
    ∧ (s.tail = (s.head + s.kring_entries) % U32 → s.peek_sqe.2 = s)) := by
  unfold SubmissionQueue.peek_sqe
  by_cases h : s.tail = (s.head + s.kring_entries) % U32
  · simp [h]
  · simp [h]

/-- Witness for C1 on the concrete fresh capacity-4 ring: not full, so
peek_sqe hands out slot 0 and advances the tail to 1. -/
theorem peek_sqe_spec_witness :
    exSQ.peek_sqe.1 = some (exSQ.sqes (Nat.land exSQ.tail exSQ.kring_mask))
    ∧ exSQ.peek_sqe.2.tail = (exSQ.tail + 1) % U32 := by
  have h := (peek_sqe_spec exSQ).2.1 (by decide)
  exact ⟨h.1, h.2.2.1⟩

/-- C2: on any state satisfying the ring invariant
shadow_tail − shadow_head ≤ capacity (which characterises the reachable
states, spec §4.2) with u32-valued fields, space_left equals
capacity − (shadow_tail − shadow_head) computed with wraparound-tolerant
subtraction, space_left + (shadow_tail − shadow_head) = capacity exactly,
and is_full holds iff space_left = 0. -/
theorem space_left_spec (s : SubmissionQueue)
    (he : s.kring_entries < U32)
    (hinv : wsub s.tail s.head ≤ s.kring_entries) :
    s.space_left = s.kring_entries - wsub s.tail s.head
    ∧ s.space_left + wsub s.tail s.head = s.kring_entries
    ∧ (s.is_full = true ↔ s.space_left = 0) := by
  have hd : wsub s.tail s.head < U32 := wsub_lt _ _
  have h1 : s.space_left = s.kring_entries - wsub s.tail s.head :=
    wsub_sub _ _ he hd hinv
  refine ⟨h1, ?_, ?_⟩
  · omega
  · simp [SubmissionQueue.is_full]

/-- Witness for C2 on the fresh capacity-4 ring: space_left 4 and the
identity 4 + 0 = 4. -/
theorem space_left_spec_witness :
    exSQ.space_left = exSQ.kring_entries - wsub exSQ.tail exSQ.head
    ∧ exSQ.space_left + wsub exSQ.tail exSQ.head = exSQ.kring_entries := by
  have h := space_left_spec exSQ (by decide) (by decide)
  exact ⟨h.1, h.2.1⟩

theorem acquireN_fields (s : SubmissionQueue)
    (he : s.kring_entries < U32) (ht : s.tail < U32)
    (hht : s.head = s.tail) :
    ∀ n, n ≤ s.kring_entries →
      (s.acquireN n).tail = (s.tail + n) % U32
      ∧ (s.acquireN n).head = s.head
      ∧ (s.acquireN n).kring_entries = s.kring_entries := by
  intro n
  induction n with
  | zero =>
      intro _
      refine ⟨?_, rfl, rfl⟩
      show s.tail = (s.tail + 0) % U32
      simp only [U32] at ht ⊢
      omega
  | succ n ih =>
      intro hn
      obtain ⟨h1, h2, h3⟩ := ih (by omega)
      have hcond : ¬ ((s.acquireN n).tail
          = ((s.acquireN n).head + (s.acquireN n).kring_entries) % U32) := by
        rw [h1, h2, h3, hht]
        simp only [U32] at ht he ⊢
        omega
      show ((s.acquireN n).peek_sqe.2.tail = (s.tail + (n + 1)) % U32)
        ∧ ((s.acquireN n).peek_sqe.2.head = s.head)
        ∧ ((s.acquireN n).peek_sqe.2.kring_entries = s.kring_entries)
      unfold SubmissionQueue.peek_sqe
      rw [if_neg hcond]
      refine ⟨?_, h2, h3⟩
      show ((s.acquireN n).tail + 1) % U32 = (s.tail + (n + 1)) % U32
      rw [h1]
      simp only [U32]
      omega

/-- C3 counterexample: capacity-4 ring, trace acquire, acquire, publish,
refresh reading 0 (kernel consumed nothing yet), acquire.  The next
publishTail returns 3, but only one acquireSlot call was made since the
previous publishTail. -/
theorem update_kernel_tail_counterexample :
    (runSqOps exSQ
        [SqOp.acquire, SqOp.acquire, SqOp.publish, SqOp.refresh 0,
         SqOp.acquire]).update_kernel_tail.1 = 3
    ∧ countAcquiresSincePublish
        [SqOp.acquire, SqOp.acquire, SqOp.publish, SqOp.refresh 0,
         SqOp.acquire] = 1
    ∧ (3 : Nat) ≠ 1 := by
  refine ⟨by decide, by decide, by decide⟩

/-- C3 (amended): publishTail returns shadow_tail − shadow_head (the
wrapping count of acquired entries the kernel has not been seen to
consume) and stores shadow_tail into the kernel-visible tail cell.  When
the shadow head equals the shadow tail — i.e. the refresh after the
previous publishTail observed every published entry consumed — and
n ≤ capacity acquireSlot calls follow, all n succeed (the tail advances by
exactly n) and publishTail then returns exactly n. -/
theorem update_kernel_tail_spec (s : SubmissionQueue) (n : Nat)
    (he : s.kring_entries < U32) (ht : s.tail < U32)
    (hht : s.head = s.tail) (hn : n ≤ s.kring_entries) :
    s.update_kernel_tail.1 = wsub s.tail s.head
    ∧ s.update_kernel_tail.2.ktail = s.tail
    ∧ (s.acquireN n).tail = (s.tail + n) % U32
    ∧ (s.acquireN n).update_kernel_tail.1 = n
    ∧ (s.acquireN n).update_kernel_tail.2.ktail = (s.acquireN n).tail := by
  obtain ⟨h1, h2, h3⟩ := acquireN_fields s he ht hht n hn
  have htail_lt : (s.acquireN n).tail < U32 := by
    rw [h1]; exact Nat.mod_lt _ (by simp only [U32]; omega)
  refine ⟨rfl, Nat.mod_eq_of_lt ht, h1, ?_, Nat.mod_eq_of_lt htail_lt⟩
  show wsub (s.acquireN n).tail (s.acquireN n).head = n
  rw [h1, h2, hht]
  simp only [wsub, U32] at ht he ⊢
  omega

/-- Witness for C3 (amended): fresh capacity-4 ring, two acquisitions,
publishTail returns 2 and the kernel-visible tail cell holds the shadow
tail. -/
theorem update_kernel_tail_spec_witness :
    (exSQ.acquireN 2).update_kernel_tail.1 = 2
    ∧ (exSQ.acquireN 2).update_kernel_tail.2.ktail = (exSQ.acquireN 2).tail := by
  have h := update_kernel_tail_spec exSQ 2 (by decide) (by decide) rfl (by decide)
  exact ⟨h.2.2.2.1, h.2.2.2.2⟩

/-- C4: submit is exactly publishTail, then enter with the returned count,
wait-count 0 and flags 0, then refreshFromKernel on the submission ring,
then refreshTail on the completion ring; it returns exactly what enter
returned, so an accepted count smaller than the published count passes
through as a normal ok value, never as an error. -/
theorem submit_spec (r : IoUring) (ent : EnterFn)
    (sq_khead_read cq_ktail_read : Nat) :
    r.submit ent sq_khead_read cq_ktail_read
      = (ent r.sq.update_kernel_tail.1 0 0,
         { r with
             sq := r.sq.update_kernel_tail.2.update_from_kernel sq_khead_read,
             cq := r.cq.update_kernel_tail cq_ktail_read })
    ∧ (∀ accepted, ent r.sq.update_kernel_tail.1 0 0 = Except.ok accepted →
        (r.submit ent sq_khead_read cq_ktail_read).1 = Except.ok accepted) := by
  refine ⟨rfl, ?_⟩
  intro accepted h
  exact h

/-- Witness for C4 on the concrete engine state with a kernel accepting
the empty batch: submit returns ok 0 and performs the four-step
sequence. -/
theorem submit_spec_witness :
    (exRing.submit exEnt 0 0).1 = Except.ok 0
    ∧ exRing.submit exEnt 0 0
      = (exEnt exRing.sq.update_kernel_tail.1 0 0,
         { exRing with
             sq := exRing.sq.update_kernel_tail.2.update_from_kernel 0,
             cq := exRing.cq.update_kernel_tail 0 }) := by
  have h := submit_spec exRing exEnt 0 0
  exact ⟨h.2 0 rfl, h.1⟩

/-- C5: evaluation at the failing input.  Both calls refresh the shadow
tail to 3 first; peek_cqe then returns the entry at
shadow_head AND mask = 1 (tag 1), but copy_cqes(1) returns the batch
starting at the unmasked kernel-visible head cell value 0 (tag 0) — not
the head entry peek returns.  The claimed batch length min(n,
availableCount()) does hold (1 here). -/
theorem copy_cqes_bug_eval :
    (exRing.copy_cqes 1 3).1 = [⟨0, 0, 0⟩]
    ∧ (exRing.peek_cqe 3).1 = some ⟨1, 0, 0⟩
    ∧ (exRing.copy_cqes 1 3).1.length
        = min 1 ((exRing.cq.update_kernel_tail 3).events_available)
    ∧ ((⟨0, 0, 0⟩ : io_uring_cqe) ≠ ⟨1, 0, 0⟩) := by
  refine ⟨by decide, by decide, by decide, by decide⟩

/-- C6: cqe_seen ignores its CQE argument and delegates to
CompletionQueue.advance with count 1; advance moves the shadow head
forward by exactly the count (wrapping), so events_available shrinks by
the count, and it touches neither the kernel-visible head cell nor the CQE
array nor the shadow tail. -/
theorem cqe_seen_spec (r : IoUring) (c : io_uring_cqe) (n : Nat)
    (ht : r.cq.tail < U32) (hh : r.cq.head < U32)
    (hn : n ≤ r.cq.events_available) :
    r.cqe_seen c = { r with cq := r.cq.advance 1 }
    ∧ (r.cq.advance n).head = (r.cq.head + n) % U32
    ∧ (r.cq.advance n).khead = r.cq.khead
    ∧ (r.cq.advance n).tail = r.cq.tail
    ∧ (r.cq.advance n).cqes = r.cq.cqes
    ∧ (r.cq.advance n).events_available = r.cq.events_available - n := by
  refine ⟨rfl, rfl, rfl, rfl, rfl, ?_⟩
  show wsub r.cq.tail ((r.cq.head + n) % U32) = wsub r.cq.tail r.cq.head - n
  have hn' : n ≤ wsub r.cq.tail r.cq.head := hn
  simp only [wsub, U32] at ht hh hn' ⊢
  omega

/-- Witness for C6: on the engine state with two unread completions,
marking one seen is advance 1; advancing by 2 keeps the kernel-visible
head cell and empties the available count. -/
theorem cqe_seen_spec_witness :
    exRing2.cqe_seen ⟨0, 0, 0⟩ = { exRing2 with cq := exRing2.cq.advance 1 }
    ∧ (exRing2.cq.advance 2).khead = exRing2.cq.khead
    ∧ (exRing2.cq.advance 2).events_available
        = exRing2.cq.events_available - 2 := by
  have h := cqe_seen_spec exRing2 ⟨0, 0, 0⟩ 2 (by decide) (by decide) (by decide)
  exact ⟨h.1, h.2.2.1, h.2.2.2.2.2⟩

/-- C7 counterexample: on the fresh capacity-4 ring (distance 0 ≤
capacity) a refresh whose kernel-head read returns 5 moves the shadow head
past the tail: the wrapping distance shadow_tail − shadow_head becomes
2^32 − 5, exceeding the capacity, so a refresh with an arbitrary read
value can decrease the shadow head modulo wraparound. -/
theorem update_from_kernel_counterexample :
    wsub exSQ.tail exSQ.head ≤ exSQ.kring_entries
    ∧ ¬ (wsub (exSQ.update_from_kernel 5).tail
          (exSQ.update_from_kernel 5).head
            ≤ (exSQ.update_from_kernel 5).kring_entries) := by
  refine ⟨by decide, by decide⟩

/-- C7 (amended): refreshFromKernel stores the read value into the shadow
head unconditionally; whenever the value read lies between the current
shadow head and the shadow tail in wrapping order (as it does for a
well-behaved kernel, which only advances the head cell over published
entries), the unsigned distance shadow_tail − shadow_head does not grow,
and in particular stays within capacity if it was. -/
theorem update_from_kernel_spec (s : SubmissionQueue) (v : Nat)
    (hh : s.head < U32) (ht : s.tail < U32) (hv : v < U32)
    (hmono : wsub v s.head ≤ wsub s.tail s.head) :
    (s.update_from_kernel v).head = v
    ∧ (s.update_from_kernel v).tail = s.tail
    ∧ wsub (s.update_from_kernel v).tail (s.update_from_kernel v).head
        ≤ wsub s.tail s.head
    ∧ (wsub s.tail s.head ≤ s.kring_entries →
        wsub (s.update_from_kernel v).tail (s.update_from_kernel v).head
          ≤ s.kring_entries) := by
  have h1 : (s.update_from_kernel v).head = v := Nat.mod_eq_of_lt hv
  have h3 : wsub s.tail v ≤ wsub s.tail s.head := by
    simp only [wsub, U32] at hh ht hv hmono ⊢
    omega
  have h3' : wsub (s.update_from_kernel v).tail
      (s.update_from_kernel v).head ≤ wsub s.tail s.head := by
    show wsub s.tail (v % U32) ≤ _
    rw [Nat.mod_eq_of_lt hv]
    exact h3
  exact ⟨h1, rfl, h3', fun hcap => le_trans h3' hcap⟩

/-- Witness for C7 (amended): ring with two published entries; a refresh
reading 1 (kernel consumed one entry) keeps the distance at 1 ≤ 2. -/
theorem update_from_kernel_spec_witness :
    (exSQ2.update_from_kernel 1).head = 1
    ∧ wsub (exSQ2.update_from_kernel 1).tail
        (exSQ2.update_from_kernel 1).head ≤ wsub exSQ2.tail exSQ2.head := by
  have h := update_from_kernel_spec exSQ2 1 (by decide) (by decide) (by decide)
    (by decide)
  exact ⟨h.1, h.2.2.1⟩

/-- C8 counterexample: the requested capacity 0 — the only u32 value below
1 — is not clamped to 1 by IoUring::new; the default 32 is substituted
instead. -/
theorem new_sq_entries_counterexample :
    IoUring.new_sq_entries 0 = 32 ∧ (32 : Nat) ≠ 1 := by
  refine ⟨rfl, by decide⟩

/-- C8 (amended): IoUring::new passes a requested capacity in 1..4096
through unchanged and caps values above 4096 at 4096, but replaces the
request 0 by the default 32; IoUring::with_entries clamps both requested
capacities into [1, 4096] (there 0 does become 1). -/
theorem new_sq_entries_spec (e sq_req cq_req : Nat) (h1 : 1 ≤ e) :
    (e ≤ 4096 → IoUring.new_sq_entries e = e)
    ∧ (4096 < e → IoUring.new_sq_entries e = 4096)
    ∧ IoUring.new_sq_entries 0 = 32
    ∧ (IoUring.with_entries_params sq_req cq_req).1 = min (max sq_req 1) 4096
    ∧ (IoUring.with_entries_params sq_req cq_req).2 = min (max cq_req 1) 4096
    ∧ 1 ≤ (IoUring.with_entries_params sq_req cq_req).1
    ∧ (IoUring.with_entries_params sq_req cq_req).1 ≤ 4096
    ∧ 1 ≤ (IoUring.with_entries_params sq_req cq_req).2
    ∧ (IoUring.with_entries_params sq_req cq_req).2 ≤ 4096 := by
  have he0 : e ≠ 0 := by omega
  refine ⟨?_, ?_, rfl, rfl, rfl, ?_, ?_, ?_, ?_⟩
  · intro h
    simp only [IoUring.new_sq_entries, if_neg he0]
    omega
  · intro h
    simp only [IoUring.new_sq_entries, if_neg he0]
    omega
  · show 1 ≤ min (max sq_req 1) 4096
    omega
  · show min (max sq_req 1) 4096 ≤ 4096
    omega
  · show 1 ≤ min (max cq_req 1) 4096
    omega
  · show min (max cq_req 1) 4096 ≤ 4096
    omega

/-- Witness for C8 (amended): 7 passes through IoUring::new unchanged; a
with_entries request of 0 submission entries is clamped up to 1. -/
theorem new_sq_entries_spec_witness :
    IoUring.new_sq_entries 7 = 7
    ∧ 1 ≤ (IoUring.with_entries_params 0 5000).1
    ∧ (IoUring.with_entries_params 0 5000).2 ≤ 4096 := by
  have h := new_sq_entries_spec 7 0 5000 (by decide)
  exact ⟨h.1 (by decide), h.2.2.2.2.2.1, h.2.2.2.2.2.2.2.2⟩

theorem runOp_cq_khead (ent : EnterFn) (r : IoUring) (op : EngineOp) :
    (runOp ent r op).cq.khead = r.cq.khead := by
  cases op with
  | submitOp h t => rfl
  | submitAndWaitOp w h t => rfl
  | peekCqeOp t => rfl
  | copyCqesOp n t =>
      show (r.copy_cqes n t).2.cq.khead = r.cq.khead
      unfold IoUring.copy_cqes
      dsimp only
      split <;> rfl
  | cqeSeenOp c => rfl
  | enterOp s w f => rfl
  | getSqeOp =>
      show r.get_sqe.2.cq.khead = r.cq.khead
      unfold IoUring.get_sqe
      split <;> rfl
  | allocUserDataOp =>
      show r.alloc_user_data.2.cq.khead = r.cq.khead
      unfold IoUring.alloc_user_data
      split
      · rfl
      · dsimp only
        split <;> rfl
  | freeUserDataOp v =>
      show (r.free_user_data v).cq.khead = r.cq.khead
      unfold IoUring.free_user_data
      split <;> rfl

/-- C9: across every sequence of public engine calls the kernel-visible
completion-ring head cell keeps its value — CompletionQueue.set_khead is
never reached — so consumed completion slots are never returned to the
kernel. -/
theorem cq_khead_never_written (ent : EnterFn) (ops : List EngineOp)
    (r : IoUring) : (runOps ent r ops).cq.khead = r.cq.khead := by
  induction ops generalizing r with
  | nil => rfl
  | cons op rest ih =>
      show (runOps ent (runOp ent r op) rest).cq.khead = r.cq.khead
      rw [ih (runOp ent r op), runOp_cq_khead]

theorem runOp_pool_nonzero (ent : EnterFn) (r : IoUring) (op : EngineOp)
    (hP : ∀ x ∈ r.free_user_data_pool, x ≠ 0) :
    ∀ x ∈ (runOp ent r op).free_user_data_pool, x ≠ 0 := by
  cases op with
  | submitOp h t => exact hP
  | submitAndWaitOp w h t => exact hP
  | peekCqeOp t => exact hP
  | copyCqesOp n t =>
      show ∀ x ∈ (r.copy_cqes n t).2.free_user_data_pool, x ≠ 0
      unfold IoUring.copy_cqes
      dsimp only
      split <;> exact hP
  | cqeSeenOp c => exact hP
  | enterOp s w f => exact hP
  | getSqeOp =>
      show ∀ x ∈ r.get_sqe.2.free_user_data_pool, x ≠ 0
      unfold IoUring.get_sqe
      split <;> exact hP
  | allocUserDataOp =>
      show ∀ x ∈ r.alloc_user_data.2.free_user_data_pool, x ≠ 0
      unfold IoUring.alloc_user_data
      split
      · rename_i reused rest hpool
        intro x hx
        exact hP x (by rw [hpool]; exact List.mem_cons_of_mem _ hx)
      · dsimp only
        split <;> exact hP
  | freeUserDataOp v =>
      show ∀ x ∈ (r.free_user_data v).free_user_data_pool, x ≠ 0
      unfold IoUring.free_user_data
      split
      · rename_i hv
        intro x hx
        rcases List.mem_cons.mp hx with h | h
        · rw [h]; exact hv
        · exact hP x h
      · exact hP

theorem runOps_pool_nonzero (ent : EnterFn) (ops : List EngineOp)
    (r : IoUring) (hP : ∀ x ∈ r.free_user_data_pool, x ≠ 0) :
    ∀ x ∈ (runOps ent r ops).free_user_data_pool, x ≠ 0 := by
  induction ops generalizing r with
  | nil => exact hP
  | cons op rest ih => exact ih (runOp ent r op) (runOp_pool_nonzero ent r op hP)

/-- C10: starting from any engine state whose reuse pool holds no zero (in
particular the freshly created one, whose pool is empty), after any
sequence of public engine calls alloc_user_data returns a nonzero tag, and
free_user_data with the reserved value 0 adds nothing to the pool — it
leaves the state untouched. -/
theorem alloc_user_data_nonzero (ent : EnterFn) (ops : List EngineOp)
    (r : IoUring) (hP : ∀ x ∈ r.free_user_data_pool, x ≠ 0) :
    (runOps ent r ops).alloc_user_data.1 ≠ 0
    ∧ (runOps ent r ops).free_user_data 0 = runOps ent r ops := by
  have hinv := runOps_pool_nonzero ent ops r hP
  constructor
  · show (runOps ent r ops).alloc_user_data.1 ≠ 0
    unfold IoUring.alloc_user_data
    split
    · rename_i reused rest hpool
      exact hinv reused (by rw [hpool]; exact List.mem_cons_self _ _)
    · dsimp only
      split
      · simp
      · rename_i hne
        exact hne
  · unfold IoUring.free_user_data
    simp

/-- Witness for C10: the concrete engine state has an empty reuse pool;
after a get_sqe, an allocation (handing out 1) and a no-op free of the
reserved 0, allocating again still yields a nonzero tag, and freeing 0
leaves the state unchanged. -/
theorem alloc_user_data_nonzero_witness :
    (runOps exEnt exRing
        [EngineOp.getSqeOp, EngineOp.allocUserDataOp,
         EngineOp.freeUserDataOp 0]).alloc_user_data.1 ≠ 0
    ∧ (runOps exEnt exRing
        [EngineOp.getSqeOp, EngineOp.allocUserDataOp,
         EngineOp.freeUserDataOp 0]).free_user_data 0
      = runOps exEnt exRing
          [EngineOp.getSqeOp, EngineOp.allocUserDataOp,
           EngineOp.freeUserDataOp 0] := by
  exact alloc_user_data_nonzero exEnt
    [EngineOp.getSqeOp, EngineOp.allocUserDataOp, EngineOp.freeUserDataOp 0]
    exRing (by intro x hx; simp [exRing] at hx)
